import Mathlib

/-!
Verification of `logsearch.py` (lewisd19/log-parser-suite).

This file shallowly embeds the core functions of `src/logsearch.py` as
executable Lean definitions and proves/refutes the specification claims
about them.  Python strings are modelled as Lean `String`/`List Char`,
Python `datetime` values (only ever compared) as `Int`, Python dicts with
insertion order as association lists, and compiled regex patterns
abstractly as a textual pattern plus a search predicate (the code only
ever calls `p.search(line)` and reads `p.pattern`).
-/

namespace Logsearch

/-- A compiled pattern as `match_line` consumes it: `pattern` is the textual
form (`p.pattern`), `search` is the compiled search test (`p.search(line)`
viewed as a Boolean). -/
structure Pattern where
  pattern : String
  search : String → Bool

/-- The list `reasons` built by the two `for` loops at the top of
`match_line` (src/logsearch.py:89-95): for each keyword pattern that hits,
`"kw:" ++ pattern`, then for each regex pattern that hits, `"re:" ++ pattern`,
in declared order. -/
def reasonsOf (line : String) (kw rx : List Pattern) : List String :=
  (kw.filter (fun p => p.search line)).map (fun p => "kw:" ++ p.pattern)
    ++ (rx.filter (fun p => p.search line)).map (fun p => "re:" ++ p.pattern)

/-- `match_line(line, kw_patterns, rx_patterns, match_mode)`
(src/logsearch.py:88-105).  Returns `(matched, reason)`.  The mode is the
raw string compared against `"all"`; any other string takes the final
`return True, reasons[0]` path, exactly as in the source. -/
def match_line (line : String) (kw rx : List Pattern) (match_mode : String) :
    Bool × Option String :=
  let reasons := reasonsOf line kw rx
  if reasons = [] then (false, none)
  else if match_mode = "all" then
    let ok := (kw.isEmpty || kw.any (fun p => p.search line))
      && (rx.isEmpty || rx.any (fun p => p.search line))
    (ok, if ok then reasons.head? else none)
  else (true, reasons.head?)

/-- Spec-side description of "the first matching pattern in
keywords-then-regexes order": the first keyword pattern whose search hits,
tagged `kw:`, else the first regex pattern whose search hits, tagged `re:`. -/
def firstMatchReason (line : String) (kw rx : List Pattern) : Option String :=
  match kw.find? (fun p => p.search line) with
  | some p => some ("kw:" ++ p.pattern)
  | none =>
    match rx.find? (fun p => p.search line) with
    | some p => some ("re:" ++ p.pattern)
    | none => none

/-- `within_window(ts, since, until)` (src/logsearch.py:116-125).
`datetime` values are modelled as `Int` instants; `if since and ...` tests
`since is not None` since a `datetime` object is always truthy.  (`until` is
a Lean keyword, hence the binder name `untl`.) -/
def within_window (ts since untl : Option Int) : Bool :=
  match since, untl with
  | none, none => true
  | _, _ =>
    match ts with
    | none => false
    | some t =>
      if (match since with | some s => decide (t < s) | none => false) then false
      else if (match untl with | some u => decide (u < t) | none => false) then false
      else true

/-! ### Line source

Files are opened with `newline=""` (src/logsearch.py:59-62), so iterating the
handle (or `readlines()`) splits on `\n`, `\r\n` or `\r` in universal-newline
fashion while returning the terminators untranslated.  `pySplitKeepEnds`
models that splitting on a file content given as `List Char`. -/

/-- Worker for `pySplitKeepEnds`: `acc` holds the (reversed) characters of
the line being assembled.  The first argument is fuel (structural recursion;
any fuel above the input length gives the splitting, see
`splitKeepEndsAux_fuel`). -/
def splitKeepEndsAux : Nat → List Char → List Char → List (List Char)
  | 0, _, _ => []
  | _ + 1, [], acc => if acc.isEmpty then [] else [acc.reverse]
  | fuel + 1, c :: cs, acc =>
    if c = '\n' then (acc.reverse ++ [c]) :: splitKeepEndsAux fuel cs []
    else if c = '\r' then
      if cs.head? = some '\n' then
        (acc.reverse ++ ['\r', '\n']) :: splitKeepEndsAux fuel cs.tail []
      else (acc.reverse ++ [c]) :: splitKeepEndsAux fuel cs []
    else splitKeepEndsAux fuel cs (c :: acc)

/-- Python text-mode line iteration / `readlines()` with `newline=""`:
split into lines, keeping the line endings. -/
def pySplitKeepEnds (content : List Char) : List (List Char) :=
  splitKeepEndsAux (content.length + 1) content []

/-- Python `s.rstrip(strip)`: remove the longest trailing run of characters
that belong to the character *set* `strip`. -/
def pyRstrip (s : List Char) (strip : List Char) : List Char :=
  (s.reverse.dropWhile (fun c => strip.contains c)).reverse

/-- The Python string literal `"\\n"` used at src/logsearch.py:112 and :142:
it denotes the two characters backslash and letter `n` (not a newline). -/
def backslashN : List Char := ['\\', 'n']

/-- Per-file body of `iter_lines` (src/logsearch.py:107-114): enumerate the
lines of one file starting at 1 and yield `line.rstrip("\\n")`. -/
def numberFrom : Nat → List (List Char) → List (Nat × List Char)
  | _, [] => []
  | n, l :: ls => (n, l) :: numberFrom (n + 1) ls

/-- `iter_lines` restricted to a single file with the given content
(src/logsearch.py:107-114): yields `(idx, line.rstrip("\\n"))` for the file's
lines, `idx` counted from 1. -/
def iter_lines_file (content : List Char) : List (Nat × List Char) :=
  numberFrom 1 ((pySplitKeepEnds content).map (fun ln => pyRstrip ln backslashN))

/-! ### Tail engine (follow mode)

`_tail_files` (src/logsearch.py:144-198) keeps, per watched file, the state
dict `{"fh", "pos", "lineno", "stat": (st_ino, st_size)}`.  We model one
file's per-sweep transition, with the file's content at stat time given as a
`List Char` (offsets are character offsets; the poll body is modelled as
atomic, i.e. the content does not change within one sweep). -/

/-- Per-file tail cursor state: `pos` is the read offset, `lineno` the line
counter, `(ino, size)` the recorded `st["stat"]` pair. -/
structure TailState where
  pos : Nat
  lineno : Nat
  ino : Nat
  size : Nat
deriving Repr, DecidableEq

/-- `_open` (src/logsearch.py:147-157) for a non-gzip file that opens
successfully: seek to end-of-file, line counter 0, record current stat. -/
def tailOpen (content : List Char) (ino : Nat) : TailState :=
  { pos := content.length, lineno := 0, ino := ino, size := content.length }

/-- `_read_new_lines(fp, pos)` (src/logsearch.py:138-142): seek to `pos`,
`readlines()` to end-of-file, return the new offset and the lines mapped
through `rstrip("\\n")`. -/
def _read_new_lines (content : List Char) (pos : Nat) : Nat × List (List Char) :=
  (content.length,
   (pySplitKeepEnds (content.drop pos)).map (fun ln => pyRstrip ln backslashN))

/-- The emission loop at src/logsearch.py:185-187: for each line, increment
`st["lineno"]` and invoke the callback with the new counter value. -/
def tailEmit : Nat → List (List Char) → List (Nat × List Char)
  | _, [] => []
  | n, l :: ls => (n + 1, l) :: tailEmit (n + 1) ls

/-- One poll-sweep body for one watched file (src/logsearch.py:166-189,
stat succeeding): if the current size shrank below `st["stat"][1]`, reopen at
end-of-file (truncation/rotation handling, lines 169-180) and continue the
same iteration; then read everything after the cursor; if lines arrived,
advance `pos`, set `stat` to `(ino, new_pos)` and emit each line with an
incremented counter, otherwise just refresh `stat`. -/
def tailSweep (content : List Char) (ino : Nat) (st : TailState) :
    TailState × List (Nat × List Char) :=
  let st1 := if content.length < st.size then tailOpen content ino else st
  let res := _read_new_lines content st1.pos
  if res.2.isEmpty then
    ({ st1 with ino := ino, size := content.length }, [])
  else
    ({ pos := res.1, lineno := st1.lineno + res.2.length, ino := ino, size := res.1 },
     tailEmit st1.lineno res.2)

/-- A line as stored in a watched log file: terminated by `'\n'`, with no
`'\n'`/`'\r'` before the terminator. -/
def cleanLine (l : List Char) : Bool :=
  l.getLast? = some '\n' && l.dropLast.all (fun c => !(c = '\n' || c = '\r'))

/-! ### JSONL sink

`emit_record`'s `jsonl` branch (src/logsearch.py:299-303) builds a Python
dict with the five fixed keys, merges `extra_fields` in with `dict.update`,
serializes it with `json.dumps(rec, ensure_ascii=False)` and appends the
Python string literal `"\\n"` (backslash + letter n).  JSON values occurring
in a record are strings, integers (`lineno`) or `null` (a named group that
did not participate in the match captures `None`). -/

/-- JSON values a record can hold. -/
inductive JVal where
  | str : String → JVal
  | num : Int → JVal
  | null : JVal
deriving Repr, DecidableEq

/-- `d[k] = v` on an insertion-ordered dict: replace in place if the key is
present, else append at the end. -/
def setKey {α : Type} : List (String × α) → String → α → List (String × α)
  | [], k, v => [(k, v)]
  | (k0, v0) :: rest, k, v =>
    if k0 = k then (k0, v) :: rest else (k0, v0) :: setKey rest k v

/-- Python `d.update(extra)`: assign each key of `extra` in order. -/
def pyDictUpdate {α : Type} (d extra : List (String × α)) : List (String × α) :=
  extra.foldl (fun acc kv => setKey acc kv.1 kv.2) d

/-- The dict built at src/logsearch.py:300-302: fixed keys in declaration
order, then `rec.update(extra_fields)` when `extra_fields` is non-empty. -/
def jsonl_rec (file : String) (lineno : Nat) (ts_out reason line : String)
    (extra : List (String × JVal)) : List (String × JVal) :=
  let rec0 : List (String × JVal) :=
    [("file", .str file), ("lineno", .num lineno), ("timestamp", .str ts_out),
      ("reason", .str reason), ("line", .str line)]
  if extra.isEmpty then rec0 else pyDictUpdate rec0 extra

/-- Lower-case hex digit, as used by `json.dumps` control-character escapes. -/
def hexDigit (n : Nat) : Char :=
  if n < 10 then Char.ofNat (48 + n) else Char.ofNat (87 + n)

/-- `json.dumps` escaping of one character with `ensure_ascii=False`: only
`"`,` \` and control characters below 0x20 are escaped. -/
def jsonEscapeChar (c : Char) : List Char :=
  if c = '"' then ['\\', '"']
  else if c = '\\' then ['\\', '\\']
  else if c = '\n' then ['\\', 'n']
  else if c = '\r' then ['\\', 'r']
  else if c = '\t' then ['\\', 't']
  else if c = Char.ofNat 8 then ['\\', 'b']
  else if c = Char.ofNat 12 then ['\\', 'f']
  else if c.toNat < 32 then
    ['\\', 'u', '0', '0', hexDigit (c.toNat / 16), hexDigit (c.toNat % 16)]
  else [c]

/-- JSON string serialization: quote and escape. -/
def jsonQuote (s : List Char) : List Char :=
  '"' :: ((s.map jsonEscapeChar).flatten ++ ['"'])

/-- Serialization of one JSON value. -/
def jsonDumpVal : JVal → List Char
  | .str s => jsonQuote s.data
  | .num i => (toString i).data
  | .null => "null".data

/-- Serialization of one `"key": value` member (default `': '` separator). -/
def jsonDumpMember (m : String × JVal) : List Char :=
  jsonQuote m.1.data ++ ':' :: ' ' :: jsonDumpVal m.2

/-- `json.dumps(rec, ensure_ascii=False)` for an object, with the default
`', '` item separator and keys in insertion order. -/
def json_dumps (rec : List (String × JVal)) : List Char :=
  '{' :: (List.intercalate [',', ' '] (rec.map jsonDumpMember) ++ ['}'])

/-- The full `jsonl` branch of `emit_record` (src/logsearch.py:299-303): the
characters written to the output for one record.  Note the terminator is the
literal `"\\n"`, i.e. `backslashN`, exactly as in the source. -/
def emit_jsonl (file : String) (lineno : Nat) (ts_out reason line : String)
    (extra : List (String × JVal)) : List Char :=
  json_dumps (jsonl_rec file lineno ts_out reason line extra) ++ backslashN

/-! ### A JSON reader (standard JSON, flat-object fragment)

To state the round-trip claim we model `json.loads` on the fragment the sink
can produce: one object whose values are strings, integers or `null`.  Like
`json.loads`, the whole input must be consumed (anything but whitespace after
the object is "Extra data" and fails the parse). -/

/-- JSON whitespace. -/
def jsonWS (c : Char) : Bool :=
  c = ' ' || c = '\t' || c = '\n' || c = '\r'

/-- Value of a hex digit, if any. -/
def hexVal (c : Char) : Option Nat :=
  if '0' ≤ c ∧ c ≤ '9' then some (c.toNat - 48)
  else if 'a' ≤ c ∧ c ≤ 'f' then some (c.toNat - 87)
  else if 'A' ≤ c ∧ c ≤ 'F' then some (c.toNat - 55)
  else none

/-- Parse a string body after the opening quote; returns the unescaped
characters and the input following the closing quote. -/
def parseJsonStr : Nat → List Char → Option (List Char × List Char)
  | 0, _ => none
  | _ + 1, [] => none
  | fuel + 1, c :: cs =>
    if c = '"' then some ([], cs)
    else if c = '\\' then
      match cs with
      | [] => none
      | e :: cs2 =>
        let dec : Option (Char × List Char) :=
          if e = '"' then some ('"', cs2)
          else if e = '\\' then some ('\\', cs2)
          else if e = '/' then some ('/', cs2)
          else if e = 'n' then some ('\n', cs2)
          else if e = 't' then some ('\t', cs2)
          else if e = 'r' then some ('\r', cs2)
          else if e = 'b' then some (Char.ofNat 8, cs2)
          else if e = 'f' then some (Char.ofNat 12, cs2)
          else if e = 'u' then
            match cs2 with
            | h1 :: h2 :: h3 :: h4 :: cs3 =>
              match hexVal h1, hexVal h2, hexVal h3, hexVal h4 with
              | some a, some b, some c2, some d =>
                some (Char.ofNat (((a * 16 + b) * 16 + c2) * 16 + d), cs3)
              | _, _, _, _ => none
            | _ => none
          else none
        match dec with
        | none => none
        | some (ch, rest) =>
          (parseJsonStr fuel rest).map (fun p => (ch :: p.1, p.2))
    else (parseJsonStr fuel cs).map (fun p => (c :: p.1, p.2))

/-- Consume a run of decimal digits, accumulating their value. -/
def parseDigits : List Char → Nat → Nat × List Char
  | [], acc => (acc, [])
  | c :: cs, acc =>
    if c.isDigit then parseDigits cs (acc * 10 + (c.toNat - 48))
    else (acc, c :: cs)

/-- Parse one JSON value of the fragment: string, integer or `null`. -/
def parseJsonVal (fuel : Nat) (s : List Char) : Option (JVal × List Char) :=
  match s with
  | [] => none
  | c :: cs =>
    if c = '"' then
      (parseJsonStr fuel cs).map (fun p => (JVal.str (String.mk p.1), p.2))
    else if c = '-' then
      match cs with
      | d :: _ =>
        if d.isDigit then
          let p := parseDigits cs 0
          some (JVal.num (-(Int.ofNat p.1)), p.2)
        else none
      | [] => none
    else if c.isDigit then
      let p := parseDigits (c :: cs) 0
      some (JVal.num (Int.ofNat p.1), p.2)
    else
      match s with
      | 'n' :: 'u' :: 'l' :: 'l' :: rest => some (JVal.null, rest)
      | _ => none

/-- Parse the members of an object, positioned right after `{` or after a
`,`; `first` tells whether a closing `}` may come immediately. -/
def parseJsonMembers : Nat → List Char → Bool →
    Option (List (String × JVal) × List Char)
  | 0, _, _ => none
  | fuel + 1, s, first =>
    let s1 := s.dropWhile jsonWS
    match s1 with
    | '}' :: rest => if first then some ([], rest) else none
    | '"' :: cs =>
      match parseJsonStr (fuel + 1) cs with
      | none => none
      | some (key, afterKey) =>
        match (afterKey.dropWhile jsonWS) with
        | ':' :: afterColon =>
          match parseJsonVal (fuel + 1) (afterColon.dropWhile jsonWS) with
          | none => none
          | some (v, afterVal) =>
            match (afterVal.dropWhile jsonWS) with
            | ',' :: afterComma =>
              match parseJsonMembers fuel afterComma false with
              | none => none
              | some (ms, rest) => some ((String.mk key, v) :: ms, rest)
            | '}' :: rest => some ([(String.mk key, v)], rest)
            | _ => none
        | _ => none
    | _ => none

/-- `json.loads` on the flat-object fragment: optional leading whitespace, an
object, optional trailing whitespace and nothing else — any further input is
"Extra data" and the parse fails. -/
def json_loads (s : List Char) : Option (List (String × JVal)) :=
  match s.dropWhile jsonWS with
  | '{' :: cs =>
    match parseJsonMembers (s.length + 1) cs true with
    | none => none
    | some (ms, rest) =>
      if (rest.dropWhile jsonWS).isEmpty then some ms else none
  | _ => none

/-! ### CSV sink

`emit_record`'s `csv` branch (src/logsearch.py:290-298).  It keeps two pieces
of state across records: the growing set `dynamic_fields` and the
`csv.DictWriter`, whose `fieldnames` are fixed when it is first created.  All
cells are strings (`csv` stringifies `lineno`).  `DictWriter.writerow` with
the default `extrasaction="raise"` raises `ValueError` when the row holds a
key outside `fieldnames`, and fills missing fields with the empty cell
(`restval=None` is written as the empty string). -/

/-- The arguments `emit_record` receives for one accepted line, with CSV cell
values as strings. -/
structure CsvRecord where
  file : String
  lineno : Nat
  ts_out : String
  reason : String
  line : String
  extra : List (String × String)
deriving Repr, DecidableEq

/-- Sink state: the Python set `dynamic_fields` (modelled as a deduplicated
list, only ever read through `sorted`), the `DictWriter`'s fieldnames if one
was created, and the rows written so far (header row included). -/
structure CsvState where
  dynamic_fields : List String
  writer : Option (List String)
  out : List (List String)
deriving Repr, DecidableEq

/-- `dynamic_fields |= set(extra_fields.keys())`. -/
def pySetUnion (s ks : List String) : List String :=
  (s ++ ks).dedup

/-- `["file", "lineno", "timestamp", "reason"] + sorted(dynamic_fields) +
["line"]` (src/logsearch.py:292). -/
def csvFieldnames (dyn : List String) : List String :=
  ["file", "lineno", "timestamp", "reason"]
    ++ dyn.insertionSort (· ≤ ·) ++ ["line"]

/-- The row dict of src/logsearch.py:296-297: fixed keys (`reason or ""` is
the identity on strings since only the empty string is falsy), then
`row.update(extra_fields)`. -/
def csvRow (r : CsvRecord) : List (String × String) :=
  let base : List (String × String) :=
    [("file", r.file), ("lineno", toString r.lineno),
      ("timestamp", r.ts_out),
      ("reason", if r.reason = "" then "" else r.reason),
      ("line", r.line)]
  pyDictUpdate base r.extra

/-- `DictWriter.writerow` with default `extrasaction="raise"`: error when the
row has a key not among the fieldnames, else one cell per fieldname, empty
for missing keys. -/
def writerow (fieldnames : List String) (row : List (String × String)) :
    Except String (List String) :=
  if row.all (fun kv => fieldnames.contains kv.1) then
    .ok (fieldnames.map (fun fn => ((row.lookup fn).getD "")))
  else .error "ValueError: dict contains fields not in fieldnames"

/-- One `csv`-branch invocation of `emit_record` (src/logsearch.py:290-298):
grow `dynamic_fields`, recompute `fieldnames`, create the writer and write
the header on the first record only, then `writerow` the row. -/
def emit_record_csv (st : CsvState) (r : CsvRecord) : Except String CsvState :=
  let dyn := pySetUnion st.dynamic_fields (r.extra.map Prod.fst)
  let fieldnames := csvFieldnames dyn
  let wfn := match st.writer with | none => fieldnames | some fn => fn
  let header : List (List String) :=
    match st.writer with | none => [fieldnames] | some _ => []
  match writerow wfn (csvRow r) with
  | .error e => .error e
  | .ok cells =>
    .ok { dynamic_fields := dyn, writer := some wfn,
          out := st.out ++ header ++ [cells] }

/-- A whole CSV run: fold `emit_record` over the accepted records starting
from the empty sink state. -/
def emit_csv_run (records : List CsvRecord) : Except String CsvState :=
  records.foldlM emit_record_csv ⟨[], none, []⟩

/-! ### File resolver

`find_files` (src/logsearch.py:38-57).  The filesystem is abstracted by the
results of `glob.glob(os.path.expanduser(os.path.expandvars(pat)),
recursive=True)` — the function `globResults` — and by the predicates
`exists_` / `is_file` at resolution time.  `Path` values are modelled as
their (normalized) path strings; Python sorts `Path`s by exactly that string
on POSIX, so `sorted(set(...))` is the lexicographically sorted list of the
distinct collected paths. -/

def find_files (globResults : String → List String)
    (exists_ is_file : String → Bool)
    (include_globs exclude_globs : List String) : List String :=
  let files := include_globs.flatMap
    (fun pat => (globResults pat).filter (fun p => exists_ p && is_file p))
  let files := files.dedup.insertionSort (· ≤ ·)
  if exclude_globs.isEmpty then files
  else
    let excluded := exclude_globs.flatMap globResults
    files.filter (fun f => !(excluded.contains f))

/-- The batch driver's empty-set check (src/logsearch.py:267-270): an empty
resolved file set is fatal, `sys.exit(1)`. -/
def batch_files_or_exit (files : List String) : Except Nat (List String) :=
  if files.isEmpty then .error 1 else .ok files

end Logsearch

namespace Logsearch

/-! ## Helper lemmas -/

theorem filter_head?_eq_find? {α : Type} (p : α → Bool) (l : List α) :
    (l.filter p).head? = l.find? p := by
  induction l with
  | nil => rfl
  | cons a l ih =>
    by_cases h : p a = true
    · simp [List.filter_cons, List.find?_cons, h]
    · simp only [Bool.not_eq_true] at h
      simp [List.filter_cons, List.find?_cons, h, ih]

theorem reasonsOf_eq_nil_iff (line : String) (kw rx : List Pattern) :
    reasonsOf line kw rx = [] ↔
      kw.any (fun p => p.search line) = false
        ∧ rx.any (fun p => p.search line) = false := by
  simp [reasonsOf, List.append_eq_nil, List.map_eq_nil_iff,
    List.filter_eq_nil_iff, List.any_eq_false]

theorem head?_reasonsOf (line : String) (kw rx : List Pattern) :
    (reasonsOf line kw rx).head? = firstMatchReason line kw rx := by
  unfold reasonsOf firstMatchReason
  rw [List.head?_append, List.head?_map, List.head?_map,
    filter_head?_eq_find?, filter_head?_eq_find?]
  cases hk : kw.find? (fun p => p.search line) with
  | some p => simp
  | none =>
    cases hr : rx.find? (fun p => p.search line) with
    | some p => simp
    | none => simp


/-! ## Claim theorems: Matcher and time window -/

/-- C7: the time-window check.  If both `since` and `until` are absent every
line passes regardless of its timestamp; otherwise a line passes iff an
extracted timestamp exists and lies within the inclusive bounds that are
present (no parseable timestamp ⇒ excluded once either bound is set). -/
theorem within_window_spec (ts since untl : Option Int) :
    within_window ts since untl = true ↔
      ((since = none ∧ untl = none) ∨
        (∃ t, ts = some t ∧ (∀ s, since = some s → s ≤ t)
          ∧ (∀ u, untl = some u → t ≤ u))) := by
  cases since <;> cases untl <;> cases ts <;> simp [within_window]

/-- Witness for `within_window_spec` at concrete inputs. -/
theorem within_window_spec_witness :
    within_window (some 15) (some 1) (some 31) = true
      ∧ within_window none (some 1) none = false := by
  constructor
  · exact (within_window_spec (some 15) (some 1) (some 31)).mpr
      (Or.inr ⟨15, rfl, by intro s hs; simp at hs; omega,
        by intro u hu; simp at hu; omega⟩)
  · have h := within_window_spec none (some 1) none
    simp at h
    exact h

/-- C8: in `any` mode `match_line` matches iff some keyword or regex pattern
hits; the reason is then the first matching pattern in keywords-then-regexes
order and is absent otherwise; and with both pattern lists empty no line ever
matches, in any mode. -/
theorem match_line_any_and_empty (line : String) (kw rx : List Pattern) :
    ((match_line line kw rx "any").1 = true ↔
      (kw.any (fun p => p.search line) = true
        ∨ rx.any (fun p => p.search line) = true))
    ∧ ((match_line line kw rx "any").1 = true →
        (match_line line kw rx "any").2 = firstMatchReason line kw rx)
    ∧ ((match_line line kw rx "any").1 = false →
        (match_line line kw rx "any").2 = none)
    ∧ (∀ mode : String, match_line line [] [] mode = (false, none)) := by
  have hmode : ("any" : String) ≠ "all" := by decide
  by_cases hr : reasonsOf line kw rx = []
  · have hany := (reasonsOf_eq_nil_iff line kw rx).mp hr
    refine ⟨?_, ?_, ?_, ?_⟩
    · simp [match_line, hr, hany.1, hany.2]
    · simp [match_line, hr]
    · simp [match_line, hr]
    · intro mode
      simp [match_line, reasonsOf]
  · refine ⟨?_, ?_, ?_, ?_⟩
    · constructor
      · intro _
        rcases (not_and_or.mp (fun h => hr ((reasonsOf_eq_nil_iff line kw rx).mpr
            ⟨h.1, h.2⟩))) with h | h
        · exact Or.inl (by simpa using h)
        · exact Or.inr (by simpa using h)
      · intro _
        simp [match_line, hr, hmode]
    · intro _
      simp [match_line, hr, hmode, head?_reasonsOf]
    · intro hfalse
      exfalso
      simp [match_line, hr, hmode] at hfalse
    · intro mode
      simp [match_line, reasonsOf]

/-- Witness for `match_line_any_and_empty` at concrete patterns. -/
theorem match_line_any_and_empty_witness :
    (match_line "x" [⟨"ERROR", fun _ => true⟩] [⟨"t.o", fun _ => false⟩] "any").2
      = firstMatchReason "x" [⟨"ERROR", fun _ => true⟩] [⟨"t.o", fun _ => false⟩] :=
  (match_line_any_and_empty "x" [⟨"ERROR", fun _ => true⟩]
    [⟨"t.o", fun _ => false⟩]).2.1 (by rfl)

/-- C2: in `all` mode with both pattern lists non-empty, `match_line` matches
iff at least one keyword pattern and at least one regex pattern each hit; the
reason is populated only when that conjunction succeeds and is then the first
matching pattern in keywords-then-regexes order. -/
theorem match_line_all_both_nonempty (line : String) (kw rx : List Pattern)
    (hkw : kw ≠ []) (hrx : rx ≠ []) :
    ((match_line line kw rx "all").1 = true ↔
      (kw.any (fun p => p.search line) = true
        ∧ rx.any (fun p => p.search line) = true))
    ∧ ((match_line line kw rx "all").1 = true →
        (match_line line kw rx "all").2 = firstMatchReason line kw rx)
    ∧ ((match_line line kw rx "all").1 = false →
        (match_line line kw rx "all").2 = none) := by
  have hkwe : kw.isEmpty = false := by
    cases kw with
    | nil => exact absurd rfl hkw
    | cons a l => rfl
  have hrxe : rx.isEmpty = false := by
    cases rx with
    | nil => exact absurd rfl hrx
    | cons a l => rfl
  by_cases hr : reasonsOf line kw rx = []
  · have hany := (reasonsOf_eq_nil_iff line kw rx).mp hr
    refine ⟨?_, ?_, ?_⟩
    · simp [match_line, hr, hany.1, hany.2]
    · simp [match_line, hr]
    · simp [match_line, hr]
  · by_cases hok : (kw.any (fun p => p.search line)
        && rx.any (fun p => p.search line)) = true
    · refine ⟨?_, ?_, ?_⟩
      · simp only [Bool.and_eq_true] at hok
        simp [match_line, hr, hkwe, hrxe, hok.1, hok.2]
      · intro _
        simp only [Bool.and_eq_true] at hok
        simp [match_line, hr, hkwe, hrxe, hok.1, hok.2, head?_reasonsOf]
      · intro hfalse
        simp only [Bool.and_eq_true] at hok
        simp [match_line, hr, hkwe, hrxe, hok.1, hok.2] at hfalse
    · refine ⟨?_, ?_, ?_⟩
      · simp only [Bool.and_eq_true, not_and_or, Bool.not_eq_true] at hok
        constructor
        · intro htrue
          exfalso
          rcases hok with h | h <;>
            simp [match_line, hr, hkwe, hrxe, h] at htrue
        · intro hboth
          exfalso
          rcases hok with h | h
          · simp [hboth.1] at h
          · simp [hboth.2] at h
      · intro htrue
        exfalso
        simp only [Bool.and_eq_true, not_and_or, Bool.not_eq_true] at hok
        rcases hok with h | h <;>
          simp [match_line, hr, hkwe, hrxe, h] at htrue
      · intro _
        simp only [Bool.and_eq_true, not_and_or, Bool.not_eq_true] at hok
        rcases hok with h | h <;>
          simp [match_line, hr, hkwe, hrxe, h]

/-- Witness for `match_line_all_both_nonempty`: a line hit by a keyword but
by no regex does not match in `all` mode. -/
theorem match_line_all_both_nonempty_witness :
    (match_line "x" [⟨"ERROR", fun _ => true⟩] [⟨"t.o", fun _ => false⟩] "all").1
      = false := by
  have h := match_line_all_both_nonempty "x" [⟨"ERROR", fun _ => true⟩]
    [⟨"t.o", fun _ => false⟩] (by simp) (by simp)
  rcases hb : (match_line "x" [⟨"ERROR", fun _ => true⟩]
      [⟨"t.o", fun _ => false⟩] "all").1 with _ | _
  · rfl
  · exact absurd ((h.1.mp hb).2) (by simp)

/-! ## Claim theorems: Line Source and JSONL sink -/

/-- C4 (failing on the code): `iter_lines` yields lines through
`rstrip("\\n")`, whose strip set is the two characters backslash and letter
`n`, not the newline character.  On the file content `"error\n"` the yielded
text still carries its `'\n'` terminator, and on the terminator-less final
line `"warn"` the trailing letter `n` of the content itself is removed. -/
theorem iter_lines_rstrip_divergence :
    iter_lines_file "error\n".data = [(1, "error\n".data)]
      ∧ iter_lines_file "warn".data = [(1, "war".data)]
      ∧ "error\n".data ≠ "error".data
      ∧ "war".data ≠ "warn".data := by
  refine ⟨rfl, rfl, by decide, by decide⟩

/-- C3 (failing on the code): the `jsonl` branch of `emit_record` appends the
Python literal `"\\n"` — the two characters `\` and `n` — after
`json.dumps(rec)`, so the serialized record contains no newline character at
all; records are not newline-terminated. -/
theorem jsonl_terminator_divergence :
    (emit_jsonl "a.log" 1 "" "kw:ERROR" "ERROR boom" []).reverse.take 2
        = ['n', '\\']
      ∧ ('\n' ∉ emit_jsonl "a.log" 1 "" "kw:ERROR" "ERROR boom" []) := by
  refine ⟨by decide, by decide⟩

/-- C6 (failing on the code): re-parsing the exact byte sequence the sink
writes for a record fails (the trailing literal `\`,`n` junk is "Extra data"
for a JSON reader), although the `json.dumps` part alone would round-trip to
the very record that was serialized. -/
theorem jsonl_roundtrip_divergence :
    json_loads (emit_jsonl "a.log" 1 "" "kw:ERROR" "ERROR boom"
        [("ip", .str "10.0.0.1")]) = none
      ∧ json_loads (json_dumps (jsonl_rec "a.log" 1 "" "kw:ERROR" "ERROR boom"
          [("ip", .str "10.0.0.1")]))
        = some (jsonl_rec "a.log" 1 "" "kw:ERROR" "ERROR boom"
          [("ip", .str "10.0.0.1")]) := by
  refine ⟨by decide, by decide⟩

/-! ## Claim theorems: CSV sink -/

/-- C5 (counterexample): with a first record carrying no extracted fields and
a second record carrying a new field `ip`, the second `writerow` raises
`ValueError` (`csv.DictWriter`'s default `extrasaction="raise"`), so the
subsequent record is NOT written and the new key is not silently omitted. -/
theorem csv_new_field_fails_counterexample :
    emit_csv_run
        [⟨"a.log", 1, "", "kw:ERROR", "ERROR one", []⟩,
         ⟨"a.log", 2, "", "kw:ERROR", "ERROR two", [("ip", "10.0.0.1")]⟩]
      = .error "ValueError: dict contains fields not in fieldnames" := by
  rfl

/-- Keys appearing in `setKey d k v` come from `d` or are `k`. -/
theorem setKey_keys_subset {α : Type} (d : List (String × α)) (k : String)
    (v : α) :
    ∀ kv ∈ setKey d k v, kv.1 ∈ d.map Prod.fst ∨ kv.1 = k := by
  induction d with
  | nil =>
    intro kv hkv
    simp only [setKey, List.mem_singleton] at hkv
    subst hkv
    simp
  | cons hd tl ih =>
    obtain ⟨k0, v0⟩ := hd
    intro kv hkv
    simp only [setKey] at hkv
    by_cases hk : k0 = k
    · rw [if_pos hk] at hkv
      rcases List.mem_cons.mp hkv with h | h
      · subst h
        simp [hk]
      · left
        rw [List.map_cons]
        exact List.mem_cons_of_mem _ (List.mem_map_of_mem Prod.fst h)
    · rw [if_neg hk] at hkv
      rcases List.mem_cons.mp hkv with h | h
      · subst h
        simp
      · rcases ih kv h with h' | h'
        · left
          rw [List.map_cons]
          exact List.mem_cons_of_mem _ h'
        · right
          exact h'

/-- Keys of `pyDictUpdate d e` come from `d` or from `e`. -/
theorem pyDictUpdate_keys_subset {α : Type} (e d : List (String × α)) :
    ∀ kv ∈ pyDictUpdate d e, kv.1 ∈ d.map Prod.fst ∨ kv.1 ∈ e.map Prod.fst := by
  induction e generalizing d with
  | nil =>
    intro kv h
    exact Or.inl (List.mem_map_of_mem Prod.fst h)
  | cons he te ih =>
    intro kv h
    have step : pyDictUpdate d (he :: te) = pyDictUpdate (setKey d he.1 he.2) te :=
      rfl
    rw [step] at h
    rcases ih (setKey d he.1 he.2) kv h with h' | h'
    · rcases List.mem_map.mp h' with ⟨kv2, hkv2, hfst⟩
      rcases setKey_keys_subset d he.1 he.2 kv2 hkv2 with h2 | h2
      · exact Or.inl (hfst ▸ h2)
      · right
        rw [List.map_cons]
        have hkv1 : kv.1 = he.1 := hfst ▸ h2
        rw [hkv1]
        exact List.mem_cons_self _ _
    · right
      rw [List.map_cons]
      exact List.mem_cons_of_mem _ h'

/-- Membership in the recomputed CSV field names. -/
theorem mem_csvFieldnames (dyn : List String) (k : String)
    (h : k ∈ (["file", "lineno", "timestamp", "reason", "line"] : List String)
      ∨ k ∈ dyn) :
    k ∈ csvFieldnames dyn := by
  unfold csvFieldnames
  simp only [List.mem_append, (List.perm_insertionSort (· ≤ ·) dyn).mem_iff]
  simp only [List.mem_cons, List.mem_singleton, List.not_mem_nil] at h ⊢
  tauto

/-- On a record's own write, every key of its row is among the field names
recomputed from the grown `dynamic_fields`. -/
theorem csvRow_all_in_fieldnames (s : List String) (r : CsvRecord) :
    (csvRow r).all
      (fun kv => (csvFieldnames (pySetUnion s (r.extra.map Prod.fst))).contains kv.1)
      = true := by
  rw [List.all_eq_true]
  intro kv hkv
  have hsub := pyDictUpdate_keys_subset r.extra
    [("file", r.file), ("lineno", toString r.lineno), ("timestamp", r.ts_out),
      ("reason", if r.reason = "" then "" else r.reason), ("line", r.line)]
    kv hkv
  have hmem : kv.1 ∈ csvFieldnames (pySetUnion s (r.extra.map Prod.fst)) := by
    apply mem_csvFieldnames
    rcases hsub with h | h
    · left
      simpa using h
    · right
      unfold pySetUnion
      rw [List.mem_dedup, List.mem_append]
      exact Or.inr h
  simpa using hmem

/-- C5 (amended): the CSV header is fixed when the first record is written
(fixed columns, the alphabetically sorted field names seen so far, then
`line`); a subsequent record whose row keys all lie in that header is written
in exactly that header's shape (missing fields empty); but a subsequent
record carrying a key not present in the header makes `writerow` raise
`ValueError` — the record is not written and the key is not omitted. -/
theorem emit_record_csv_amended (st : CsvState) (r : CsvRecord) :
    (st.writer = none →
      emit_record_csv st r = .ok
        { dynamic_fields := pySetUnion st.dynamic_fields (r.extra.map Prod.fst),
          writer := some
            (csvFieldnames (pySetUnion st.dynamic_fields (r.extra.map Prod.fst))),
          out := st.out
            ++ [csvFieldnames (pySetUnion st.dynamic_fields (r.extra.map Prod.fst)),
                (csvFieldnames (pySetUnion st.dynamic_fields (r.extra.map Prod.fst))).map
                  (fun fn => (((csvRow r).lookup fn).getD ""))] })
    ∧ (∀ fn, st.writer = some fn →
        (csvRow r).all (fun kv => fn.contains kv.1) = true →
          emit_record_csv st r = .ok
            { dynamic_fields := pySetUnion st.dynamic_fields (r.extra.map Prod.fst),
              writer := some fn,
              out := st.out ++ [fn.map (fun f2 => (((csvRow r).lookup f2).getD ""))] })
    ∧ (∀ fn, st.writer = some fn →
        (csvRow r).all (fun kv => fn.contains kv.1) = false →
          emit_record_csv st r
            = .error "ValueError: dict contains fields not in fieldnames") := by
  refine ⟨?_, ?_, ?_⟩
  · intro hw
    unfold emit_record_csv writerow
    rw [hw]
    simp only [csvRow_all_in_fieldnames st.dynamic_fields r, if_pos]
    simp [List.append_assoc]
  · intro fn hw hall
    unfold emit_record_csv writerow
    rw [hw]
    simp only [hall, if_pos]
    simp
  · intro fn hw hall
    unfold emit_record_csv writerow
    rw [hw]
    simp only [hall]
    simp

/-- Witness for `emit_record_csv_amended`: a concrete first write fixes the
header, and a concrete second record with a fresh field name errors. -/
theorem emit_record_csv_amended_witness :
    emit_record_csv ⟨[], none, []⟩ ⟨"a.log", 1, "", "kw:ERROR", "ERROR one", []⟩
        = .ok ⟨[], some ["file", "lineno", "timestamp", "reason", "line"],
            [["file", "lineno", "timestamp", "reason", "line"],
             ["a.log", "1", "", "kw:ERROR", "ERROR one"]]⟩
      ∧ emit_record_csv
          ⟨[], some ["file", "lineno", "timestamp", "reason", "line"],
            [["file", "lineno", "timestamp", "reason", "line"],
             ["a.log", "1", "", "kw:ERROR", "ERROR one"]]⟩
          ⟨"a.log", 2, "", "kw:ERROR", "ERROR two", [("ip", "10.0.0.1")]⟩
        = .error "ValueError: dict contains fields not in fieldnames" := by
  constructor
  · have h := (emit_record_csv_amended ⟨[], none, []⟩
      ⟨"a.log", 1, "", "kw:ERROR", "ERROR one", []⟩).1 rfl
    rw [h]
    rfl
  · exact (emit_record_csv_amended
      ⟨[], some ["file", "lineno", "timestamp", "reason", "line"],
        [["file", "lineno", "timestamp", "reason", "line"],
         ["a.log", "1", "", "kw:ERROR", "ERROR one"]]⟩
      ⟨"a.log", 2, "", "kw:ERROR", "ERROR two", [("ip", "10.0.0.1")]⟩).2.2
      ["file", "lineno", "timestamp", "reason", "line"] rfl (by rfl)

/-! ## Claim theorems: JSONL field merging -/

/-- `setKey` binds the assigned key. -/
theorem lookup_setKey_self {α : Type} (d : List (String × α)) (k : String)
    (v : α) : (setKey d k v).lookup k = some v := by
  induction d with
  | nil => simp [setKey, List.lookup]
  | cons hd tl ih =>
    obtain ⟨k0, v0⟩ := hd
    by_cases hk : k0 = k
    · simp [setKey, if_pos hk, List.lookup, hk]
    · simp only [setKey, if_neg hk]
      rw [List.lookup_cons]
      have : (k == k0) = false := by
        simp [Ne.symm hk]
      simp [this, ih]

/-- `setKey` leaves other keys untouched. -/
theorem lookup_setKey_ne {α : Type} (d : List (String × α)) (k k2 : String)
    (v : α) (h : k2 ≠ k) : (setKey d k v).lookup k2 = d.lookup k2 := by
  have hb : (k2 == k) = false := by simp [h]
  induction d with
  | nil => simp [setKey, List.lookup, hb]
  | cons hd tl ih =>
    obtain ⟨k0, v0⟩ := hd
    by_cases hk : k0 = k
    · subst hk
      have hset : setKey ((k0, v0) :: tl) k0 v = (k0, v) :: tl := by
        simp [setKey]
      rw [hset, List.lookup_cons, List.lookup_cons]
      simp [hb]
    · have hset : setKey ((k0, v0) :: tl) k v = (k0, v0) :: setKey tl k v := by
        simp [setKey, hk]
      rw [hset, List.lookup_cons, List.lookup_cons]
      cases hbeq : (k2 == k0) with
      | true => simp [hbeq]
      | false => simp [hbeq, ih]

/-- Updating with keys that avoid `k` does not change `k`'s binding. -/
theorem lookup_pyDictUpdate_not_mem {α : Type} (e : List (String × α))
    (k : String) (hk : k ∉ e.map Prod.fst) :
    ∀ d : List (String × α), (pyDictUpdate d e).lookup k = d.lookup k := by
  induction e with
  | nil => intro d; rfl
  | cons he te ih =>
    intro d
    have hk2 : k ∉ te.map Prod.fst := by
      intro hmem
      exact hk (by rw [List.map_cons]; exact List.mem_cons_of_mem _ hmem)
    have hne : k ≠ he.1 := by
      intro heq
      exact hk (by rw [List.map_cons, heq]; exact List.mem_cons_self _ _)
    have step : pyDictUpdate d (he :: te) = pyDictUpdate (setKey d he.1 he.2) te :=
      rfl
    rw [step, ih hk2, lookup_setKey_ne d he.1 k he.2 hne]

/-- After `d.update(e)` with duplicate-free keys in `e`, each pair of `e` is
the binding found for its key. -/
theorem lookup_pyDictUpdate_mem {α : Type} (e : List (String × α))
    (hnd : (e.map Prod.fst).Nodup) (k : String) (v : α) (hm : (k, v) ∈ e) :
    ∀ d : List (String × α), (pyDictUpdate d e).lookup k = some v := by
  induction e with
  | nil => cases hm
  | cons he te ih =>
    intro d
    have step : pyDictUpdate d (he :: te) = pyDictUpdate (setKey d he.1 he.2) te :=
      rfl
    rw [step]
    rcases List.mem_cons.mp hm with h | h
    · subst h
      have hk : k ∉ te.map Prod.fst := by
        rw [List.map_cons] at hnd
        exact (List.nodup_cons.mp hnd).1
      rw [lookup_pyDictUpdate_not_mem te k hk, lookup_setKey_self]
    · have hnd2 : (te.map Prod.fst).Nodup := by
        rw [List.map_cons] at hnd
        exact (List.nodup_cons.mp hnd).2
      exact ih hnd2 h _

/-- C10: in the JSONL record the extracted fields are merged in after the
fixed keys with `dict.update`, so a captured field whose name collides with a
fixed key (`file`, `lineno`, `timestamp`, `reason` or `line`) replaces that
key's value in the emitted object; in particular a group named `line`
replaces the raw line text. -/
theorem jsonl_extra_overrides_fixed (file : String) (lineno : Nat)
    (ts_out reason line : String) (extra : List (String × JVal))
    (hnd : (extra.map Prod.fst).Nodup) :
    (∀ k v, (k, v) ∈ extra →
      (jsonl_rec file lineno ts_out reason line extra).lookup k = some v)
    ∧ (emit_jsonl file lineno ts_out reason line extra
        = json_dumps (jsonl_rec file lineno ts_out reason line extra)
          ++ backslashN) := by
  constructor
  · intro k v hm
    have hne : extra.isEmpty = false := by
      cases extra with
      | nil => cases hm
      | cons a l => rfl
    unfold jsonl_rec
    rw [hne]
    simp only [Bool.false_eq_true, if_false]
    exact lookup_pyDictUpdate_mem extra hnd k v hm _
  · rfl

/-- Witness for `jsonl_extra_overrides_fixed`: a capture group named `line`
replaces the raw line text in the emitted object. -/
theorem jsonl_extra_overrides_fixed_witness :
    (jsonl_rec "a.log" 1 "" "kw:ERROR" "raw line text"
        [("line", .str "CAPTURED")]).lookup "line" = some (.str "CAPTURED") :=
  (jsonl_extra_overrides_fixed "a.log" 1 "" "kw:ERROR" "raw line text"
    [("line", .str "CAPTURED")] (by simp)).1 "line" (.str "CAPTURED") (by simp)

/-! ## Claim theorems: File resolver -/

/-- C9: the resolved file set contains only paths that existed as regular
files at resolution time, has no duplicates, is sorted in lexicographic path
order, contains no path produced by expanding an exclude pattern, and an
empty final set is the distinguishable fatal condition of a batch run. -/
theorem find_files_spec (globResults : String → List String)
    (exists_ is_file : String → Bool) (include_globs exclude_globs : List String) :
    (∀ p ∈ find_files globResults exists_ is_file include_globs exclude_globs,
      exists_ p = true ∧ is_file p = true)
    ∧ (find_files globResults exists_ is_file include_globs exclude_globs).Nodup
    ∧ (find_files globResults exists_ is_file include_globs exclude_globs).Sorted
        (· ≤ ·)
    ∧ (∀ p ∈ find_files globResults exists_ is_file include_globs exclude_globs,
        ∀ e ∈ exclude_globs, p ∉ globResults e)
    ∧ (∀ fs : List String, (batch_files_or_exit fs = .error 1 ↔ fs = [])) := by
  have hbase : ∀ p ∈ (include_globs.flatMap
      (fun pat => (globResults pat).filter (fun q => exists_ q && is_file q))),
      exists_ p = true ∧ is_file p = true := by
    intro p hp
    rcases List.mem_flatMap.mp hp with ⟨pat, _, hmem⟩
    have := List.of_mem_filter hmem
    exact ⟨(Bool.and_eq_true _ _ |>.mp this).1, (Bool.and_eq_true _ _ |>.mp this).2⟩
  have hsorted : ∀ l : List String, (l.dedup.insertionSort (· ≤ ·)).Sorted (· ≤ ·) :=
    fun l => List.sorted_insertionSort (· ≤ ·) l.dedup
  have hnodup : ∀ l : List String, (l.dedup.insertionSort (· ≤ ·)).Nodup :=
    fun l => ((List.perm_insertionSort (· ≤ ·) l.dedup).symm).nodup (List.nodup_dedup l)
  have hmem_sorted : ∀ (l : List String) p,
      p ∈ l.dedup.insertionSort (· ≤ ·) ↔ p ∈ l := by
    intro l p
    rw [(List.perm_insertionSort (· ≤ ·) l.dedup).mem_iff, List.mem_dedup]
  by_cases hexc : exclude_globs.isEmpty
  · have hfind : find_files globResults exists_ is_file include_globs exclude_globs
        = (include_globs.flatMap
            (fun pat => (globResults pat).filter
              (fun q => exists_ q && is_file q))).dedup.insertionSort (· ≤ ·) := by
      unfold find_files
      rw [if_pos hexc]
    have hexc2 : exclude_globs = [] := List.isEmpty_iff.mp hexc
    refine ⟨?_, ?_, ?_, ?_, ?_⟩
    · intro p hp
      rw [hfind] at hp
      exact hbase p ((hmem_sorted _ p).mp hp)
    · rw [hfind]; exact hnodup _
    · rw [hfind]; exact hsorted _
    · intro p _ e he
      rw [hexc2] at he
      cases he
    · intro fs
      unfold batch_files_or_exit
      cases fs <;> simp
  · have hfind : find_files globResults exists_ is_file include_globs exclude_globs
        = ((include_globs.flatMap
            (fun pat => (globResults pat).filter
              (fun q => exists_ q && is_file q))).dedup.insertionSort
                (· ≤ ·)).filter
            (fun f => !((exclude_globs.flatMap globResults).contains f)) := by
      unfold find_files
      rw [if_neg hexc]
    refine ⟨?_, ?_, ?_, ?_, ?_⟩
    · intro p hp
      rw [hfind] at hp
      exact hbase p ((hmem_sorted _ p).mp (List.mem_of_mem_filter hp))
    · rw [hfind]
      exact List.Nodup.filter _ (hnodup _)
    · rw [hfind]
      exact List.Pairwise.filter _ (hsorted _)
    · intro p hp e he hpe
      rw [hfind] at hp
      have hflag := List.of_mem_filter hp
      have : p ∈ exclude_globs.flatMap globResults :=
        List.mem_flatMap.mpr ⟨e, he, hpe⟩
      simp [this] at hflag
    · intro fs
      unfold batch_files_or_exit
      cases fs <;> simp

/-- Witness for `find_files_spec` at a concrete filesystem. -/
theorem find_files_spec_witness :
    (fun p => decide (p = "a.log")) "a.log" = true
      ∧ batch_files_or_exit [] = .error 1 := by
  refine ⟨?_, ?_⟩
  · exact ((find_files_spec
      (fun pat => if pat = "*.log" then ["a.log", "a.log"] else [])
      (fun p => decide (p = "a.log"))
      (fun _ => true) ["*.log"] []).1 "a.log" (by decide)).1
  · exact ((find_files_spec (fun _ => []) (fun _ => true) (fun _ => true)
      [] []).2.2.2.2 []).mpr rfl

/-! ## Claim theorems: Tail Engine -/

/-- Fuel irrelevance for the line splitter: any fuel above the input length
computes the same splitting. -/
theorem splitKeepEndsAux_fuel :
    ∀ (f1 : Nat) (s acc : List Char) (f2 : Nat), s.length < f1 → s.length < f2 →
      splitKeepEndsAux f1 s acc = splitKeepEndsAux f2 s acc := by
  intro f1
  induction f1 with
  | zero =>
    intro s acc f2 h1 _
    exact absurd h1 (Nat.not_lt_zero _)
  | succ n ih =>
    intro s acc f2 h1 h2
    cases f2 with
    | zero => exact absurd h2 (Nat.not_lt_zero _)
    | succ m =>
      cases s with
      | nil => rfl
      | cons c cs =>
        simp only [List.length_cons] at h1 h2
        have htail := List.length_tail cs
        by_cases hn : c = '\n'
        · simp only [splitKeepEndsAux, if_pos hn]
          rw [ih cs [] m (by omega) (by omega)]
        · by_cases hrc : c = '\r'
          · by_cases hh : cs.head? = some '\n'
            · simp only [splitKeepEndsAux, if_neg hn, if_pos hrc, if_pos hh]
              rw [ih cs.tail [] m (by omega) (by omega)]
            · simp only [splitKeepEndsAux, if_neg hn, if_pos hrc, if_neg hh]
              rw [ih cs [] m (by omega) (by omega)]
          · simp only [splitKeepEndsAux, if_neg hn, if_neg hrc]
            rw [ih cs (c :: acc) m (by omega) (by omega)]

/-- Splitting a clean line body followed by `'\n'` peels off exactly that
line. -/
theorem splitKeepEndsAux_body :
    ∀ (body : List Char), (∀ c ∈ body, c ≠ '\n' ∧ c ≠ '\r') →
      ∀ (rest acc : List Char) (f : Nat), body.length + rest.length + 2 ≤ f →
        splitKeepEndsAux f (body ++ '\n' :: rest) acc
          = ((acc.reverse ++ body) ++ ['\n']) :: pySplitKeepEnds rest := by
  intro body
  induction body with
  | nil =>
    intro _ rest acc f hf
    cases f with
    | zero => omega
    | succ n =>
      simp only [List.nil_append, List.length_nil] at hf ⊢
      simp only [splitKeepEndsAux, if_pos rfl]
      rw [splitKeepEndsAux_fuel n rest [] (rest.length + 1) (by omega) (by omega)]
      simp [pySplitKeepEnds]
  | cons c body ih =>
    intro hcl rest acc f hf
    have hc := hcl c (List.mem_cons_self _ _)
    cases f with
    | zero => omega
    | succ n =>
      simp only [List.length_cons] at hf
      simp only [List.cons_append, splitKeepEndsAux, if_neg hc.1, if_neg hc.2,
        List.append_eq]
      rw [ih (fun x hx => hcl x (List.mem_cons_of_mem _ hx)) rest (c :: acc) n
        (by omega)]
      simp

/-- A clean line is its terminator-free body followed by `'\n'`. -/
theorem cleanLine_decomp (l : List Char) (h : cleanLine l = true) :
    l = l.dropLast ++ ['\n'] ∧ ∀ c ∈ l.dropLast, c ≠ '\n' ∧ c ≠ '\r' := by
  unfold cleanLine at h
  rw [Bool.and_eq_true] at h
  obtain ⟨h1, h2⟩ := h
  have hlast : l.getLast? = some '\n' := of_decide_eq_true h1
  have hne : l ≠ [] := by
    intro e
    rw [e] at hlast
    cases hlast
  constructor
  · have hg := List.getLast?_eq_getLast l hne
    rw [hg] at hlast
    have : l.getLast hne = '\n' := Option.some.inj hlast
    conv_lhs => rw [← List.dropLast_append_getLast hne]
    rw [this]
  · intro c hc
    have hx := (List.all_eq_true.mp h2) c hc
    constructor
    · intro e
      subst e
      simp at hx
    · intro e
      subst e
      simp at hx

/-- The splitter is a left inverse of flattening clean lines. -/
theorem pySplitKeepEnds_flatten (ls : List (List Char))
    (h : ∀ l ∈ ls, cleanLine l = true) :
    pySplitKeepEnds ls.flatten = ls := by
  induction ls with
  | nil => rfl
  | cons l ls ih =>
    obtain ⟨hEq, hAll⟩ := cleanLine_decomp l (h l (List.mem_cons_self _ _))
    have h2 : ∀ l2 ∈ ls, cleanLine l2 = true :=
      fun l2 hl2 => h l2 (List.mem_cons_of_mem _ hl2)
    show splitKeepEndsAux ((l :: ls).flatten.length + 1) (l :: ls).flatten [] = l :: ls
    rw [List.flatten_cons]
    have hsplit : l ++ ls.flatten = l.dropLast ++ '\n' :: ls.flatten := by
      conv_lhs => rw [hEq]
      simp [List.append_assoc]
    rw [hsplit]
    rw [splitKeepEndsAux_body l.dropLast hAll ls.flatten []
      ((l.dropLast ++ '\n' :: ls.flatten).length + 1)
      (by simp [List.length_append]; omega)]
    rw [ih h2]
    have hhead : (([] : List Char).reverse ++ l.dropLast) ++ ['\n'] = l := by
      simp only [List.reverse_nil, List.nil_append]
      exact hEq.symm
    rw [hhead]

/-- Line numbers emitted in one sweep are the consecutive range continuing
from the stored counter. -/
theorem tailEmit_map_fst (n : Nat) (ls : List (List Char)) :
    (tailEmit n ls).map Prod.fst = List.range' (n + 1) ls.length := by
  induction ls generalizing n with
  | nil => rfl
  | cons l ls ih =>
    simp [tailEmit, List.range'_succ, ih]

/-- C1: per-file behaviour of one tail-engine poll sweep.  (i) When the file
has grown by appending `newLines` (each a complete `'\n'`-terminated line)
after the cursor, the sweep makes exactly one callback per appended line, in
append order, with line numbers continuing from the stored counter (the
payloads pass through `rstrip("\\n")`, which leaves a `'\n'`-terminated line
unchanged).  (ii) Those line numbers are the consecutive range
`lineno+1, …, lineno+N` — strictly increasing, never repeated within the
epoch, never below 1.  (iii) Whenever the current size is smaller than the
last known size, the file is reopened with the cursor at the new end-of-file,
the line counter is reset to 0 and nothing is emitted on that sweep. -/
theorem tail_sweep_spec (priorContent : List Char) (newLines : List (List Char))
    (ino : Nat) (st : TailState)
    (hpos : st.pos = priorContent.length)
    (hsize : st.size ≤ priorContent.length)
    (hclean : ∀ l ∈ newLines, cleanLine l = true) :
    (tailSweep (priorContent ++ newLines.flatten) ino st
      = ({ pos := (priorContent ++ newLines.flatten).length,
           lineno := st.lineno + newLines.length,
           ino := ino,
           size := (priorContent ++ newLines.flatten).length },
         tailEmit st.lineno (newLines.map (fun l => pyRstrip l backslashN))))
    ∧ ((tailEmit st.lineno (newLines.map (fun l => pyRstrip l backslashN))).map
          Prod.fst = List.range' (st.lineno + 1) newLines.length)
    ∧ (∀ shrunk : List Char, shrunk.length < st.size →
        tailSweep shrunk ino st
          = ({ pos := shrunk.length, lineno := 0, ino := ino,
               size := shrunk.length }, [])) := by
  obtain ⟨pos, lineno, ino0, size⟩ := st
  simp only at hpos hsize ⊢
  refine ⟨?_, ?_, ?_⟩
  · have hnotlt : ¬ ((priorContent ++ newLines.flatten).length < size) := by
      rw [List.length_append]
      omega
    have hdrop : (priorContent ++ newLines.flatten).drop pos = newLines.flatten := by
      rw [hpos]
      exact List.drop_left _ _
    simp only [tailSweep, _read_new_lines, if_neg hnotlt, hdrop,
      pySplitKeepEnds_flatten newLines hclean]
    cases newLines with
    | nil =>
      simp only [List.map_nil, List.isEmpty_nil, if_pos rfl]
      simp [tailEmit, hpos]
    | cons l ls =>
      simp only [List.map_cons, List.isEmpty_cons, Bool.false_eq_true, if_false]
      simp [List.length_map]
  · rw [tailEmit_map_fst, List.length_map]
  · intro shrunk hlt
    have hdrop : shrunk.drop shrunk.length = [] := List.drop_length shrunk
    simp only [tailSweep, _read_new_lines, if_pos hlt, tailOpen, hdrop]
    simp [pySplitKeepEnds, splitKeepEndsAux]

/-- Witness for `tail_sweep_spec`: a concrete sweep that picks up one
appended line as line number 2, and a concrete truncation sweep that reopens
at end-of-file with the counter reset to 0. -/
theorem tail_sweep_spec_witness :
    tailSweep ("a\n".data ++ (["b\n".data]).flatten) 7 ⟨2, 1, 7, 2⟩
        = (⟨4, 2, 7, 4⟩, [(2, "b\n".data)])
      ∧ tailSweep "x".data 7 ⟨2, 1, 7, 2⟩ = (⟨1, 0, 7, 1⟩, []) := by
  have h := tail_sweep_spec "a\n".data ["b\n".data] 7 ⟨2, 1, 7, 2⟩
    (by decide) (by decide) (by decide)
  constructor
  · rw [h.1]
    decide
  · rw [h.2.2 "x".data (by decide)]
    rfl

end Logsearch
